import Mathlib

/-! # Sounder radio bring-up (`CC/Sounder/sdr-lib.cc`)

A shallow embedding of the parts of `sdr-lib.cc` that build the TDD schedules
of the base station and of the clients, and that run the sample-offset
calibration (`BaseRadioSet::collectCSI` and the attempt loop around it).

Conventions of the embedding.

* A `std::string` is a `List Char`; `at` and `replace` keep the range checks
  of the standard library and return `Except`.
* Every call into a `Radio` or a `SoapySDR::Device` is one `DevOp` event,
  appended to the trace of the `World`.  Device calls are taken to return.
* `int` values are `Int`.  The only arithmetic on them is `peak - 128`
  (taken when `128 <= peak`) and the difference of two such offsets, neither
  of which leaves the range of a 32-bit `int`.
* `collectCSI` can throw: a symbol shorter than prefix plus pilot makes the
  count of `postfix_vec` (line 641) negative and the constructor of
  `std::vector` throws `std::length_error`.  `collectCSI`, the attempt loop
  and the calibration run return `Except CsiError`; nothing catches the
  exception, so it leaves the constructor of `BaseRadioSet`.
-/

namespace Sounder

/-! ## `std::string` operations used by the schedule loops -/

/-- The exception `std::string::at` and `std::string::replace` throw. -/
inductive StrError where
  | out_of_range
  deriving DecidableEq, Repr

namespace StdString

/-- `t.at(s)`: the character at index `s`, `out_of_range` when `s >= t.size()`. -/
def charAt (t : List Char) (s : Nat) : Except StrError Char :=
  match t[s]? with
  | some c => .ok c
  | none => .error .out_of_range

/-- `t.replace(pos, len, str)`: `out_of_range` when `pos > t.size()`; otherwise
the `min(len, t.size() - pos)` characters from `pos` on are replaced by `str`. -/
def replace (t : List Char) (pos len : Nat) (str : List Char) :
    Except StrError (List Char) :=
  if pos > t.length then .error .out_of_range
  else .ok (t.take pos ++ str ++ t.drop (pos + min len (t.length - pos)))

end StdString

/-! ## Schedule translation -/

namespace BaseRadioSet

/-- Body of the inner loop of the constructor (lines 337-347) for symbol `s`
of frame `frame`, acting on the copy `sched` (`_tddSched[f]`). -/
def tddSchedStep (frame : List Char) (sched : List Char) (s : Nat) :
    Except StrError (List Char) := do
  let c ← StdString.charAt frame s
  if c = 'B' then StdString.replace sched s 1 ['P']
  else if c = 'P' then StdString.replace sched s 1 ['R']
  else if c = 'U' then StdString.replace sched s 1 ['R']
  else if c = 'D' then StdString.replace sched s 1 ['T']
  else pure sched

/-- The schedule of one frame: `_tddSched[f] = _cfg->frames[f]`, then the
loop `for (s = 0; s < _cfg->frames[f].size(); s++)`. -/
def tddSched (frame : List Char) : Except StrError (List Char) :=
  (List.range frame.length).foldlM (tddSchedStep frame) frame

end BaseRadioSet

namespace ClientRadioSet

/-- Body of the inner loop of the constructor (lines 121-131) for symbol `s`
of client frame `frame`, acting on the copy `sched` (`tddSched[i]`). -/
def tddSchedStep (frame : List Char) (sched : List Char) (s : Nat) :
    Except StrError (List Char) := do
  let c ← StdString.charAt frame s
  if c = 'B' then StdString.replace sched s 1 ['G']
  else if c = 'P' then StdString.replace sched s 1 ['P']
  else if c = 'U' then StdString.replace sched s 1 ['T']
  else if c = 'D' then StdString.replace sched s 1 ['R']
  else pure sched

/-- The schedule of one client: `tddSched[i] = _cfg->clFrames[i]`, then the
loop `for (s = 0; s < _cfg->clFrames[i].size(); s++)`. -/
def tddSched (frame : List Char) : Except StrError (List Char) :=
  (List.range frame.length).foldlM (tddSchedStep frame) frame

end ClientRadioSet

/-! ### The two loops as character maps -/

/-- What the base-station loop leaves at a position that held `c`. -/
def bsLocalOp (c : Char) : Char :=
  if c = 'B' then 'P' else if c = 'P' then 'R' else if c = 'U' then 'R'
  else if c = 'D' then 'T' else c

/-- What the client loop leaves at a position that held `c`. -/
def clLocalOp (c : Char) : Char :=
  if c = 'B' then 'G' else if c = 'P' then 'P' else if c = 'U' then 'T'
  else if c = 'D' then 'R' else c

/-! ## Devices, configuration and the trace of device operations -/

/-- A device handle, named by its place in the vector that owns it:
`bsRadios[cell][idx]->dev`, or `hubs[idx]`. -/
inductive Device where
  | radio (cell idx : Nat)
  | hub (idx : Nat)
  deriving DecidableEq, Repr

/-- `SOAPY_SDR_RX` and `SOAPY_SDR_TX`. -/
inductive Direction where
  | RX
  | TX
  deriving DecidableEq, Repr

/-- A gain in dB.  The source holds it in a `double` and only hands it on to
the device, so an exact rational stands for it. -/
abbrev Gain := Rat

/-- One call into a `Radio` or a `SoapySDR::Device`, with its arguments.
`recv` records the index of the capture buffer `buff[entry]` it fills.  The
time arguments are not recorded: `txTime` stays 0, and `rxTime` is whatever
time stamp the previous read stored in it. -/
inductive DevOp where
  | drain_buffers (dev : Device) (symSamp : Nat)
  | setGain (dev : Device) (dir : Direction) (ch : Nat) (name : String) (value : Gain)
  | writeSetting (dev : Device) (key value : String)
  | activateXmit (dev : Device)
  | xmit (dev : Device) (samples flags : Nat)
  | activateRecv (dev : Device) (numSamps : Nat)
  | recv (dev : Device) (entry samples : Nat)
  | deactivateRecv (dev : Device)
  | deactivateXmit (dev : Device)
  deriving DecidableEq, Repr

/-- The fields of `Config` that the calibration reads.  `prefixLen` is
`_cfg->prefix`, the number of zero samples put before the pilot (the source's
name is a keyword of Lean). -/
structure Config where
  nCells : Nat
  bsChannel : String
  sampsPerSymbol : Nat
  prefixLen : Nat
  txgain : Nat → Gain
  calTxGain : Nat → Gain
  sampleCalEn : Bool

/-- The members of a `BaseRadioSet` after bring-up: `hubs` is `hubs.size()`,
and `bsRadios` lists `bsRadios[c].size()` for every cell `c`. -/
structure BaseRadioSet where
  cfg : Config
  hubs : Nat
  bsRadios : List Nat

/-- The outside world as the calibration sees it: every device operation
issued so far, oldest first, and (for counting only) the number of times
`collectCSI` has been entered. -/
structure World where
  trace : List DevOp
  csiCalls : Nat

/-- The peak index `CommsLib::findLTS(rx, seqLen)` returns for the window held
in capture buffer `buff[k]`, as a function of the device operations issued
before the peak search.  Neither `findLTS` nor the sampled data are part of
this file, so the calibration takes this function as a parameter. -/
abbrev LtsOracle := List DevOp → Nat → Int

namespace BaseRadioSet

/-- `int R = bsRadios[0].size()`. -/
def R (brs : BaseRadioSet) : Nat := (brs.bsRadios[0]?).getD 0

/-- `baseRadio(cellId)`:
`hubs.empty() ? bsRadios[cellId][0]->dev : hubs[cellId]`. -/
def baseRadio (brs : BaseRadioSet) (cellId : Nat) : Device :=
  if brs.hubs = 0 then Device.radio cellId 0 else Device.hub cellId

/-- `radioTrigger()`: one `TRIGGER_GEN` write per cell. -/
def radioTrigger (brs : BaseRadioSet) : List DevOp :=
  (List.range brs.cfg.nCells).map fun c =>
    DevOp.writeSetting (brs.baseRadio c) "TRIGGER_GEN" ""

/-- `int ch = (_cfg->bsChannel == "B") ? 1 : 0`. -/
def ch (brs : BaseRadioSet) : Nat := if brs.cfg.bsChannel = "B" then 1 else 0

/-- `int seqLen = 160`. -/
def seqLen : Int := 160

/-- `int ref_ant = 0`. -/
def ref_ant : Nat := 0

/-- `int ref_offset = ref_ant == 0 ? 1 : 0`. -/
def ref_offset : Nat := if ref_ant = 0 then 1 else 0

/-- Lines 674-675: every radio drains its receive buffers. -/
def drainAll (brs : BaseRadioSet) : List DevOp :=
  (List.range brs.R).map fun i =>
    DevOp.drain_buffers (Device.radio 0 i) brs.cfg.sampsPerSymbol

/-- Lines 677-684: calibration gain, TDD off, transmit stream on. -/
def prepare (brs : BaseRadioSet) : List DevOp :=
  (List.range brs.R).flatMap fun i =>
    [ DevOp.setGain (Device.radio 0 i) Direction.TX brs.ch "PAD" (brs.cfg.calTxGain brs.ch),
      DevOp.writeSetting (Device.radio 0 i) "TDD_CONFIG" "\x7b\"tdd_enabled\":false\x7d",
      DevOp.writeSetting (Device.radio 0 i) "TDD_MODE" "false",
      DevOp.activateXmit (Device.radio 0 i) ]

/-- Lines 690-700 for transmitter `i`: radio `i` queues the pilot with flag
index 3, every other radio arms a receive of one symbol. -/
def armRound (brs : BaseRadioSet) (i : Nat) : List DevOp :=
  (List.range brs.R).map fun j =>
    if j = i then DevOp.xmit (Device.radio 0 j) brs.cfg.sampsPerSymbol 3
    else DevOp.activateRecv (Device.radio 0 j) brs.cfg.sampsPerSymbol

/-- Lines 705-716 for transmitter `i`: every radio `j` but `i` reads one symbol
into `buff[i * R + j]`. -/
def readRound (brs : BaseRadioSet) (i : Nat) : List DevOp :=
  (List.range brs.R).flatMap fun j =>
    if j = i then []
    else [DevOp.recv (Device.radio 0 j) (i * brs.R + j) brs.cfg.sampsPerSymbol]

/-- Lines 688-717: the capture round, one sub-round per transmitter. -/
def capture (brs : BaseRadioSet) : List DevOp :=
  (List.range brs.R).flatMap fun i =>
    brs.armRound i ++ brs.radioTrigger ++ brs.readRound i

/-- Line 726: the capture buffer searched for radio `i`. -/
def peakEntry (R i : Nat) : Nat :=
  (if i = ref_ant then ref_offset else ref_ant) * R + i

/-- Line 732: `offset[i] = peak < 128 ? 0 : peak - 128`. -/
def offsetOfPeak (peak : Int) : Int := if peak < 128 then 0 else peak - 128

/-- Lines 721-751: `offset` starts as `R` zeros and `good_csi` as true; radio
`i` stores its offset and clears `good_csi` when that offset is 0.  `lts k`
is the peak found in `buff[k]`. -/
def peakExtraction (R : Nat) (lts : Nat → Int) : List Int × Bool :=
  (List.range R).foldl
    (fun (st : List Int × Bool) i =>
      let peak := lts (peakEntry R i)
      let off := offsetOfPeak peak
      (st.1.set i off, if off = 0 then false else st.2))
    (List.replicate R 0, true)

/-- Lines 762-765: `while (delta < 0) { write "-1"; ++delta; }`.  Returns the
writes and the value of `delta` on exit; `fuel` bounds the iterations. -/
def stepNeg (dev : Device) : Nat → Int → List DevOp × Int
  | 0, delta => ([], delta)
  | fuel + 1, delta =>
    if delta < 0 then
      let r := stepNeg dev fuel (delta + 1)
      (DevOp.writeSetting dev "ADJUST_DELAYS" "-1" :: r.1, r.2)
    else ([], delta)

/-- Lines 766-769: `while (delta > 0) { write "1"; --delta; }`.  Returns the
writes and the value of `delta` on exit; `fuel` bounds the iterations. -/
def stepPos (dev : Device) : Nat → Int → List DevOp × Int
  | 0, delta => ([], delta)
  | fuel + 1, delta =>
    if delta > 0 then
      let r := stepPos dev fuel (delta - 1)
      (DevOp.writeSetting dev "ADJUST_DELAYS" "1" :: r.1, r.2)
    else ([], delta)

/-- Lines 760-769 for radio `i`: the delta and the two stepping loops, each
given as many iterations as the magnitude of the delta it starts from. -/
def adjustRadio (offset : List Int) (i : Nat) : List DevOp :=
  let delta : Int :=
    if offset.getD i 0 = 0 then 0 else offset.getD ref_offset 0 - offset.getD i 0
  let down := stepNeg (Device.radio 0 i) delta.natAbs delta
  let up := stepPos (Device.radio 0 i) down.2.natAbs down.2
  down.1 ++ up.1

/-- Lines 756-770: the adjustment pass. -/
def adjustDelays (R : Nat) (offset : List Int) : List DevOp :=
  (List.range R).flatMap fun i => adjustRadio offset i

/-- Lines 773-780: streams off, normal transmit gain, drain. -/
def restore (brs : BaseRadioSet) : List DevOp :=
  (List.range brs.R).flatMap fun i =>
    [ DevOp.deactivateRecv (Device.radio 0 i),
      DevOp.deactivateXmit (Device.radio 0 i),
      DevOp.setGain (Device.radio 0 i) Direction.TX brs.ch "PAD" (brs.cfg.txgain brs.ch),
      DevOp.drain_buffers (Device.radio 0 i) brs.cfg.sampsPerSymbol ]

/-- The trace when the peak search of a call entered in world `w` starts:
drain, preparation and capture round have been issued. -/
def capturedTrace (brs : BaseRadioSet) (w : World) : List DevOp :=
  w.trace ++ brs.drainAll ++ brs.prepare ++ brs.capture

/-- The pair (`offset`, `good_csi`) that a call entered in world `w` computes. -/
def measured (brs : BaseRadioSet) (findLTS : LtsOracle) (w : World) : List Int × Bool :=
  peakExtraction brs.R (findLTS (brs.capturedTrace w))

/-- The exception a call of `collectCSI` can end with: the `std::length_error`
of the constructor of `std::vector`. -/
inductive CsiError where
  | length_error
  deriving DecidableEq, Repr

/-- Line 641: `_cfg->sampsPerSymbol - _cfg->prefix - seqLen`, the number of
elements asked of the constructor of `postfix_vec`. -/
def postfixCount (brs : BaseRadioSet) : Int :=
  (brs.cfg.sampsPerSymbol : Int) - (brs.cfg.prefixLen : Int) - seqLen

/-- Lines 645-780, the part of `collectCSI` that follows the construction of
the pilot frame: drain, preparation, capture round, peak extraction, the
adjustment pass when `adjust` is still true, restore.  The world and the
value of `adjust` it leaves. -/
def captureAndAdjust (brs : BaseRadioSet) (findLTS : LtsOracle) (w : World) (adjust : Bool) :
    World × Bool :=
  let captured := brs.capturedTrace w
  let found := brs.measured findLTS w
  let offset := found.1
  let good_csi := found.2
  let adjust := adjust && good_csi
  let adjusted := if adjust then captured ++ adjustDelays brs.R offset else captured
  ({ trace := adjusted ++ brs.restore, csiCalls := w.csiCalls + 1 }, adjust)

/-- `collectCSI(bool& adjust)`.  With fewer than 2 radios it returns at once
(lines 614-618).  Otherwise it builds the pilot frame; a negative count for
`postfix_vec` (line 641) becomes a size beyond `max_size()` and the
constructor throws `std::length_error`, before any device call.  Otherwise it
returns the world and the value of `adjust` that lines 645-780 leave. -/
def collectCSI (brs : BaseRadioSet) (findLTS : LtsOracle) (w : World) (adjust : Bool) :
    Except CsiError (World × Bool) :=
  if brs.R < 2 then .ok ({ w with csiCalls := w.csiCalls + 1 }, adjust)
  else if brs.postfixCount < 0 then .error .length_error
  else .ok (brs.captureAndAdjust findLTS w adjust)

/-- The world and the flag `adjust` of the caller after a call of
`collectCSI`: what the call returned, or, when it threw, the world and the
flag as they were (the throw precedes every device call and every write to
`adjust`). -/
def afterCall (brs : BaseRadioSet) (findLTS : LtsOracle) (w : World) (adjust : Bool) :
    World × Bool :=
  match brs.collectCSI findLTS w adjust with
  | .ok r => r
  | .error _ => (w, adjust)

/-- The local variables of the attempt loop of the constructor, and the world. -/
structure CalState where
  adjust : Bool
  cal_cnt : Nat
  world : World

/-- Lines 321-328: `while (!adjust) { if (++cal_cnt > 10) break; adjust = true;
collectCSI(adjust); }`.  An exception of `collectCSI` leaves the loop and the
constructor.  `fuel` bounds the number of times the loop condition is tested;
when it runs out the state reached so far is returned. -/
def adjustLoop (brs : BaseRadioSet) (findLTS : LtsOracle) :
    Nat → CalState → Except CsiError CalState
  | 0, st => .ok st
  | fuel + 1, st =>
    if !st.adjust then
      let cal_cnt := st.cal_cnt + 1
      if cal_cnt > 10 then .ok { st with cal_cnt := cal_cnt }
      else
        match brs.collectCSI findLTS st.world true with
        | .error e => .error e
        | .ok r =>
          adjustLoop brs findLTS fuel { adjust := r.2, cal_cnt := cal_cnt, world := r.1 }
    else .ok st

/-- Lines 319-328: the attempt loop started from `adjust = false` and
`cal_cnt = 0`.  Eleven tests of the loop condition always reach the exit of
the loop, whatever the attempts return. -/
def attemptLoop (brs : BaseRadioSet) (findLTS : LtsOracle) (w : World) :
    Except CsiError CalState :=
  adjustLoop brs findLTS 11 { adjust := false, cal_cnt := 0, world := w }

/-- Lines 319-329, the body of `if (_cfg->sampleCalEn)`: the attempt loop, then
run 2, `collectCSI(adjust)`.  Returns the world and the final `adjust`, or
the exception that left the constructor. -/
def sampleCal (brs : BaseRadioSet) (findLTS : LtsOracle) (w : World) :
    Except CsiError (World × Bool) :=
  match brs.attemptLoop findLTS w with
  | .error e => .error e
  | .ok st => brs.collectCSI findLTS st.world st.adjust

end BaseRadioSet

namespace BaseRadioSet

/-- Line 760: `delta = (offset[i] == 0) ? 0 : offset[ref_offset] - offset[i]`,
the value `adjustRadio` starts its two loops from. -/
def adjustDelta (offset : List Int) (i : Nat) : Int :=
  if offset.getD i 0 = 0 then 0 else offset.getD ref_offset 0 - offset.getD i 0

/-- Lines 690-716 for transmitter `i`: arm and transmit, trigger, read.  The
capture round is the sequence of these sub-rounds. -/
def subRound (brs : BaseRadioSet) (i : Nat) : List DevOp :=
  brs.armRound i ++ brs.radioTrigger ++ brs.readRound i

/-- The operations a call of `collectCSI` entered in world `w` adds to the
trace: none when it throws. -/
def callOps (brs : BaseRadioSet) (findLTS : LtsOracle) (w : World) (adjust : Bool) :
    List DevOp :=
  (brs.afterCall findLTS w adjust).1.trace.drop w.trace.length

end BaseRadioSet

namespace Radio

/-- `Radio::drain_buffers`, lines 794-799: `r = 0, i = 0;
while (r != -1) { r = readStream(...); i++; }`.  `stream n` is what the read
number `n` (counted from 0) returns, `fuel` bounds the number of reads.  The
result is the number of reads made when the loop condition fails, or `none`
when the fuel is used up while the condition still holds. -/
def drainLoop (stream : Nat → Int) : Nat → Int → Nat → Option Nat
  | 0, r, i => if r ≠ -1 then none else some i
  | fuel + 1, r, i => if r ≠ -1 then drainLoop stream fuel (stream i) (i + 1) else some i

/-- `Radio::drain_buffers` from its initial state `r = 0`, `i = 0`. -/
def drain_buffers (stream : Nat → Int) (fuel : Nat) : Option Nat :=
  drainLoop stream fuel 0 0

end Radio

/-- The device an operation is issued to. -/
def DevOp.device : DevOp → Device
  | .drain_buffers dev _ => dev
  | .setGain dev _ _ _ _ => dev
  | .writeSetting dev _ _ => dev
  | .activateXmit dev => dev
  | .xmit dev _ _ => dev
  | .activateRecv dev _ => dev
  | .recv dev _ _ => dev
  | .deactivateRecv dev => dev
  | .deactivateXmit dev => dev

/-- Whether an operation queues a transmission (`Radio::xmit`). -/
def DevOp.isXmit : DevOp → Bool
  | .xmit _ _ _ => true
  | _ => false

/-- Whether an operation arms a receive (`Radio::activateRecv(rxTime, numSamps)`). -/
def DevOp.isActivateRecv : DevOp → Bool
  | .activateRecv _ _ => true
  | _ => false

/-- Whether an operation reads a receive buffer (`Radio::recv`). -/
def DevOp.isRecv : DevOp → Bool
  | .recv _ _ _ => true
  | _ => false

/-- Whether an operation fires the trigger (a write of `TRIGGER_GEN`). -/
def DevOp.isTrigger : DevOp → Bool
  | .writeSetting _ key _ => key = "TRIGGER_GEN"
  | _ => false

/-- The signed step an operation applies to the delay of cell-0 radio `i`:
1 for `ADJUST_DELAYS` "1", -1 for `ADJUST_DELAYS` "-1", 0 for anything else. -/
def DevOp.stepOn (i : Nat) : DevOp → Int
  | .writeSetting dev key value =>
    if dev = Device.radio 0 i ∧ key = "ADJUST_DELAYS" then
      if value = "1" then 1 else if value = "-1" then -1 else 0
    else 0
  | _ => 0

/-- The net sum of the `ADJUST_DELAYS` steps a trace has written to radio `i`. -/
def netAdjust (trace : List DevOp) (i : Nat) : Int :=
  (trace.map (DevOp.stepOn i)).sum

/-- Whether an operation is a write of the `ADJUST_DELAYS` setting. -/
def DevOp.isAdjust : DevOp → Bool
  | .writeSetting _ key _ => key = "ADJUST_DELAYS"
  | _ => false

/-! ## Example arrays and peak searches -/

/-- Configuration of the examples: one cell, channel A, no hub, symbols of 512
samples of which 82 precede the pilot. -/
def exampleCfg : Config :=
  { nCells := 1, bsChannel := "A", sampsPerSymbol := 512, prefixLen := 82,
    txgain := fun _ => 40, calTxGain := fun _ => 30, sampleCalEn := true }

/-- An array with a single radio. -/
def singleRadioArray : BaseRadioSet := { cfg := exampleCfg, hubs := 0, bsRadios := [1] }

/-- An array with two radios. -/
def twoRadioArray : BaseRadioSet := { cfg := exampleCfg, hubs := 0, bsRadios := [2] }

/-- The initial world: nothing issued yet. -/
def freshWorld : World := { trace := [], csiCalls := 0 }

/-- A peak search on two radios.  Radio 1 (odd buffer index) always peaks at
140.  Radio 0 peaks at 143 in the first capture round, the 18 operations of
which are all that has been issued by then, and at 141 in later rounds: the
three steps of the first adjustment took effect and one sample of jitter is
left. -/
def jitterLTS : LtsOracle := fun trace k =>
  if k % 2 = 1 then 140 else if trace.length ≤ 18 then 143 else 141

/-- A read stream that returns 512, then the error code -2, then -1. -/
def exampleStream (n : Nat) : Int := [512, -2, -1].getD n (-1)


/-! # Theorems -/

theorem StdString.charAt_append_cons (a b : List Char) (c : Char) :
    StdString.charAt (a ++ c :: b) a.length = .ok c := by
  have h : (a ++ c :: b)[a.length]? = some c := by
    rw [List.getElem?_append_right (Nat.le_refl _)]
    simp
  simp [StdString.charAt, h]

theorem StdString.replace_append_cons (a b : List Char) (c x : Char) (n : Nat)
    (hn : n = a.length) :
    StdString.replace (a ++ c :: b) n 1 [x] = .ok (a ++ x :: b) := by
  subst hn
  simp [StdString.replace]

theorem bs_tddSchedStep_eq (a a2 b : List Char) (c : Char)
    (h : a2.length = a.length) :
    BaseRadioSet.tddSchedStep (a ++ c :: b) (a2 ++ c :: b) a.length
      = .ok (a2 ++ bsLocalOp c :: b) := by
  unfold BaseRadioSet.tddSchedStep
  rw [StdString.charAt_append_cons]
  show (if c = 'B' then _ else _) = _
  unfold bsLocalOp
  split_ifs <;> first
    | exact StdString.replace_append_cons a2 b c _ _ h.symm
    | rfl

theorem cl_tddSchedStep_eq (a a2 b : List Char) (c : Char)
    (h : a2.length = a.length) :
    ClientRadioSet.tddSchedStep (a ++ c :: b) (a2 ++ c :: b) a.length
      = .ok (a2 ++ clLocalOp c :: b) := by
  unfold ClientRadioSet.tddSchedStep
  rw [StdString.charAt_append_cons]
  show (if c = 'B' then _ else _) = _
  unfold clLocalOp
  split_ifs <;> first
    | exact StdString.replace_append_cons a2 b c _ _ h.symm
    | rfl

theorem bs_tddSched_loop (rest a : List Char) :
    (List.range' a.length rest.length).foldlM
        (BaseRadioSet.tddSchedStep (a ++ rest)) (a.map bsLocalOp ++ rest)
      = .ok ((a ++ rest).map bsLocalOp) := by
  induction rest generalizing a with
  | nil => simp [pure, Except.pure]
  | cons c b ih =>
    rw [List.length_cons, List.range'_succ, List.foldlM_cons,
      bs_tddSchedStep_eq a _ b c (by simp)]
    have h := ih (a ++ [c])
    simp only [List.length_append, List.length_singleton, List.append_assoc,
      List.singleton_append, List.map_append, List.map_cons, List.map_nil] at h
    simpa [bind, Except.bind] using h

theorem cl_tddSched_loop (rest a : List Char) :
    (List.range' a.length rest.length).foldlM
        (ClientRadioSet.tddSchedStep (a ++ rest)) (a.map clLocalOp ++ rest)
      = .ok ((a ++ rest).map clLocalOp) := by
  induction rest generalizing a with
  | nil => simp [pure, Except.pure]
  | cons c b ih =>
    rw [List.length_cons, List.range'_succ, List.foldlM_cons,
      cl_tddSchedStep_eq a _ b c (by simp)]
    have h := ih (a ++ [c])
    simp only [List.length_append, List.length_singleton, List.append_assoc,
      List.singleton_append, List.map_append, List.map_cons, List.map_nil] at h
    simpa [bind, Except.bind] using h

/-- The base-station loop never throws and is the position-wise map `bsLocalOp`. -/
theorem bs_tddSched_eq_map (frame : List Char) :
    BaseRadioSet.tddSched frame = .ok (frame.map bsLocalOp) := by
  have h := bs_tddSched_loop frame []
  simpa [BaseRadioSet.tddSched, List.range_eq_range'] using h

/-- The client loop never throws and is the position-wise map `clLocalOp`. -/
theorem cl_tddSched_eq_map (frame : List Char) :
    ClientRadioSet.tddSched frame = .ok (frame.map clLocalOp) := by
  have h := cl_tddSched_loop frame []
  simpa [ClientRadioSet.tddSched, List.range_eq_range'] using h

/-! ## Claims on the schedule translation -/

/-- C1: for every frame string the base-station loop returns a schedule in
which each position that held B holds P, each that held P or U holds R and each
that held D holds T; the frame BPPPUUDD becomes PRRRRRTT. -/
theorem bs_tddSched_translates (frame : List Char) :
    ∃ sched, BaseRadioSet.tddSched frame = .ok sched ∧
      (∀ k : Nat, frame[k]? = some 'B' → sched[k]? = some 'P') ∧
      (∀ k : Nat, frame[k]? = some 'P' → sched[k]? = some 'R') ∧
      (∀ k : Nat, frame[k]? = some 'U' → sched[k]? = some 'R') ∧
      (∀ k : Nat, frame[k]? = some 'D' → sched[k]? = some 'T') ∧
      BaseRadioSet.tddSched "BPPPUUDD".toList = .ok "PRRRRRTT".toList := by
  refine ⟨frame.map bsLocalOp, bs_tddSched_eq_map frame, ?_, ?_, ?_, ?_, rfl⟩ <;>
    intro k hk <;> simp [List.getElem?_map, hk, bsLocalOp]

/-- C2 (as stated, refuted): on the client frame BPPPUUDD the Pilot position 1
and the Uplink position 4 carry different op codes, and the schedule is not
G followed by five T and two R. -/
theorem cl_tddSched_pilot_uplink_differ :
    ∃ sched, ClientRadioSet.tddSched "BPPPUUDD".toList = .ok sched ∧
      sched[1]? = some 'P' ∧ sched[4]? = some 'T' ∧ sched[1]? ≠ sched[4]? ∧
      sched ≠ "GTTTTTRR".toList :=
  ⟨"GPPPTTRR".toList, rfl, rfl, rfl, by decide, by decide⟩

/-- C2 (amended): for every client frame string the client loop returns a
schedule in which each position that held B holds G, each that held P still
holds P, each that held U holds T and each that held D holds R; the frame
BPPPUUDD becomes GPPPTTRR. -/
theorem cl_tddSched_translates (frame : List Char) :
    ∃ sched, ClientRadioSet.tddSched frame = .ok sched ∧
      (∀ k : Nat, frame[k]? = some 'B' → sched[k]? = some 'G') ∧
      (∀ k : Nat, frame[k]? = some 'P' → sched[k]? = some 'P') ∧
      (∀ k : Nat, frame[k]? = some 'U' → sched[k]? = some 'T') ∧
      (∀ k : Nat, frame[k]? = some 'D' → sched[k]? = some 'R') ∧
      ClientRadioSet.tddSched "BPPPUUDD".toList = .ok "GPPPTTRR".toList := by
  refine ⟨frame.map clLocalOp, cl_tddSched_eq_map frame, ?_, ?_, ?_, ?_, rfl⟩ <;>
    intro k hk <;> simp [List.getElem?_map, hk, clLocalOp]

/-- C3 (as stated, refuted): the frame BxD holds the unknown symbol x, and both
loops return a schedule for it, with x left in place, instead of failing. -/
theorem tddSched_unknown_symbol_passes :
    BaseRadioSet.tddSched "BxD".toList = .ok "PxT".toList ∧
      ClientRadioSet.tddSched "BxD".toList = .ok "GxR".toList :=
  ⟨rfl, rfl⟩

/-- C3 (amended): for every frame string both loops return a schedule (neither
ever fails), and every character other than B, P, U and D is left unchanged at
its position. -/
theorem tddSched_total_unknown_kept (frame : List Char) :
    ∃ bs cl, BaseRadioSet.tddSched frame = .ok bs ∧
      ClientRadioSet.tddSched frame = .ok cl ∧
      ∀ (k : Nat) (c : Char), frame[k]? = some c → c ≠ 'B' → c ≠ 'P' → c ≠ 'U' → c ≠ 'D' →
        bs[k]? = some c ∧ cl[k]? = some c := by
  refine ⟨frame.map bsLocalOp, frame.map clLocalOp, bs_tddSched_eq_map frame,
    cl_tddSched_eq_map frame, ?_⟩
  intro k c hk hB hP hU hD
  simp [List.getElem?_map, hk, bsLocalOp, clLocalOp, hB, hP, hU, hD]

/-- C4: for both roles the schedule returned for a frame has the length of the
frame, and two frames that agree at position k get schedules that agree at
position k. -/
theorem tddSched_length_positionwise :
    (∀ frame, ∃ bs cl, BaseRadioSet.tddSched frame = .ok bs ∧
        ClientRadioSet.tddSched frame = .ok cl ∧
        bs.length = frame.length ∧ cl.length = frame.length) ∧
    (∀ (f g bf bg : List Char) (k : Nat), BaseRadioSet.tddSched f = .ok bf → BaseRadioSet.tddSched g = .ok bg →
        f[k]? = g[k]? → bf[k]? = bg[k]?) ∧
    (∀ (f g cf cg : List Char) (k : Nat), ClientRadioSet.tddSched f = .ok cf → ClientRadioSet.tddSched g = .ok cg →
        f[k]? = g[k]? → cf[k]? = cg[k]?) := by
  refine ⟨fun frame => ⟨frame.map bsLocalOp, frame.map clLocalOp,
    bs_tddSched_eq_map frame, cl_tddSched_eq_map frame, by simp, by simp⟩,
    ?_, ?_⟩
  · intro f g bf bg k hf hg h
    rw [bs_tddSched_eq_map] at hf hg
    cases hf; cases hg
    simp [List.getElem?_map, h]
  · intro f g cf cg k hf hg h
    rw [cl_tddSched_eq_map] at hf hg
    cases hf; cases hg
    simp [List.getElem?_map, h]

/-! ## Lemmas on the peak extraction -/

open BaseRadioSet

theorem set_append_cons_length (a b : List Int) (c x : Int) :
    (a ++ c :: b).set a.length x = a ++ x :: b := by
  induction a with
  | nil => rfl
  | cons h t ih => simp [ih]

/-- The state of the peak-extraction loop after the radios before `a.length`
have been handled, run to its end. -/
theorem peakExtraction_loop (R : Nat) (lts : Nat → Int) (n : Nat) (a : List Int) (g : Bool) :
    (List.range' a.length n).foldl
        (fun (st : List Int × Bool) i =>
          let peak := lts (peakEntry R i)
          let off := offsetOfPeak peak
          (st.1.set i off, if off = 0 then false else st.2))
        (a ++ List.replicate n 0, g)
      = (a ++ (List.range' a.length n).map (fun i => offsetOfPeak (lts (peakEntry R i))),
         g && (List.range' a.length n).all
           (fun i => decide (offsetOfPeak (lts (peakEntry R i)) ≠ 0))) := by
  induction n generalizing a g with
  | zero => simp
  | succ n ih =>
    rw [List.range'_succ, List.foldl_cons, List.replicate_succ]
    simp only [set_append_cons_length]
    have h := ih (a ++ [offsetOfPeak (lts (peakEntry R a.length))])
      (if offsetOfPeak (lts (peakEntry R a.length)) = 0 then false else g)
    simp only [List.length_append, List.length_singleton, List.append_assoc,
      List.singleton_append] at h
    rw [h]
    by_cases h0 : offsetOfPeak (lts (peakEntry R a.length)) = 0 <;> simp [h0]

theorem peakExtraction_eq (R : Nat) (lts : Nat → Int) :
    peakExtraction R lts
      = ((List.range R).map (fun i => offsetOfPeak (lts (peakEntry R i))),
         (List.range R).all (fun i => decide (offsetOfPeak (lts (peakEntry R i)) ≠ 0))) := by
  have h := peakExtraction_loop R lts R [] true
  simpa [peakExtraction, List.range_eq_range'] using h

theorem peakExtraction_offset (R : Nat) (lts : Nat → Int) (i : Nat) (hi : i < R) :
    (peakExtraction R lts).1.getD i 0 = offsetOfPeak (lts (peakEntry R i)) := by
  rw [peakExtraction_eq]
  simp [List.getD_eq_getElem?_getD, List.getElem?_map, List.getElem?_range hi]

theorem peakExtraction_good (R : Nat) (lts : Nat → Int) :
    (peakExtraction R lts).2 = true ↔ ∀ i, i < R → (peakExtraction R lts).1.getD i 0 ≠ 0 := by
  constructor
  · intro h i hi
    rw [peakExtraction_offset R lts i hi]
    rw [peakExtraction_eq] at h
    simp only [List.all_eq_true, List.mem_range, decide_eq_true_eq] at h
    exact h i hi
  · intro h
    rw [peakExtraction_eq]
    simp only [List.all_eq_true, List.mem_range, decide_eq_true_eq]
    intro i hi
    have := h i hi
    rwa [peakExtraction_offset R lts i hi] at this


/-! ## Lemmas on `collectCSI` and the attempt loop -/

/-- The count of `postfix_vec` is not negative exactly when a symbol holds the
prefix and the 160 samples of the pilot. -/
theorem postfixCount_neg_iff (brs : BaseRadioSet) :
    brs.postfixCount < 0 ↔ brs.cfg.sampsPerSymbol < brs.cfg.prefixLen + 160 := by
  unfold postfixCount seqLen
  omega

theorem collectCSI_guard (brs : BaseRadioSet) (findLTS : LtsOracle) (w : World) (adjust : Bool)
    (hR : brs.R < 2) :
    brs.collectCSI findLTS w adjust = .ok ({ w with csiCalls := w.csiCalls + 1 }, adjust) := by
  unfold collectCSI
  rw [if_pos hR]

theorem collectCSI_frame (brs : BaseRadioSet) (findLTS : LtsOracle) (w : World) (adjust : Bool)
    (hR : 2 ≤ brs.R) (hS : brs.cfg.prefixLen + 160 ≤ brs.cfg.sampsPerSymbol) :
    brs.collectCSI findLTS w adjust = .ok (brs.captureAndAdjust findLTS w adjust) := by
  have hlt : ¬ brs.R < 2 := by omega
  have hc : ¬ brs.postfixCount < 0 := by
    rw [postfixCount_neg_iff]
    omega
  unfold collectCSI
  rw [if_neg hlt, if_neg hc]

/-- On at least 2 radios with symbols shorter than prefix and pilot the call
throws. -/
theorem collectCSI_short (brs : BaseRadioSet) (findLTS : LtsOracle) (w : World) (adjust : Bool)
    (hR : 2 ≤ brs.R) (hS : brs.cfg.sampsPerSymbol < brs.cfg.prefixLen + 160) :
    brs.collectCSI findLTS w adjust = .error .length_error := by
  have hlt : ¬ brs.R < 2 := by omega
  have hc : brs.postfixCount < 0 := (postfixCount_neg_iff brs).mpr hS
  unfold collectCSI
  rw [if_neg hlt, if_pos hc]

/-- A call that returns leaves what it returns. -/
theorem afterCall_of_ok (brs : BaseRadioSet) (findLTS : LtsOracle) (w : World) (adjust : Bool)
    (r : World × Bool) (h : brs.collectCSI findLTS w adjust = .ok r) :
    brs.afterCall findLTS w adjust = r := by
  unfold afterCall
  rw [h]

theorem afterCall_guard (brs : BaseRadioSet) (findLTS : LtsOracle) (w : World) (adjust : Bool)
    (hR : brs.R < 2) :
    brs.afterCall findLTS w adjust = ({ w with csiCalls := w.csiCalls + 1 }, adjust) :=
  afterCall_of_ok brs findLTS w adjust _ (collectCSI_guard brs findLTS w adjust hR)

theorem afterCall_frame (brs : BaseRadioSet) (findLTS : LtsOracle) (w : World) (adjust : Bool)
    (hR : 2 ≤ brs.R) (hS : brs.cfg.prefixLen + 160 ≤ brs.cfg.sampsPerSymbol) :
    brs.afterCall findLTS w adjust = brs.captureAndAdjust findLTS w adjust :=
  afterCall_of_ok brs findLTS w adjust _ (collectCSI_frame brs findLTS w adjust hR hS)

theorem afterCall_short (brs : BaseRadioSet) (findLTS : LtsOracle) (w : World) (adjust : Bool)
    (hR : 2 ≤ brs.R) (hS : brs.cfg.sampsPerSymbol < brs.cfg.prefixLen + 160) :
    brs.afterCall findLTS w adjust = (w, adjust) := by
  unfold afterCall
  rw [collectCSI_short brs findLTS w adjust hR hS]

/-- A call that returned with adjust true on at least 2 radios ran lines
645-780: its symbols hold prefix and pilot. -/
theorem frame_of_ok (brs : BaseRadioSet) (findLTS : LtsOracle) (w : World) (adjust : Bool)
    (r : World × Bool) (hR : 2 ≤ brs.R) (h : brs.collectCSI findLTS w adjust = .ok r) :
    brs.cfg.prefixLen + 160 ≤ brs.cfg.sampsPerSymbol := by
  by_contra hS
  rw [collectCSI_short brs findLTS w adjust hR (by omega)] at h
  cases h

/-- On at least 2 radios with symbols shorter than prefix and pilot the first
attempt throws out of the loop. -/
theorem adjustLoop_short (brs : BaseRadioSet) (findLTS : LtsOracle) (fuel c : Nat) (w : World)
    (hc : c < 10) (hR : 2 ≤ brs.R)
    (hS : brs.cfg.sampsPerSymbol < brs.cfg.prefixLen + 160) :
    adjustLoop brs findLTS (fuel + 1) ⟨false, c, w⟩ = .error .length_error := by
  have hc10 : ¬ c + 1 > 10 := by omega
  rw [adjustLoop]
  simp only [Bool.not_false, if_true, hc10, if_false, collectCSI_short brs findLTS w true hR hS]

theorem drainAll_no_adjust (brs : BaseRadioSet) :
    ∀ op, op ∈ brs.drainAll → op.isAdjust = false := by
  intro op h
  simp only [drainAll, List.mem_map] at h
  obtain ⟨i, _, rfl⟩ := h
  rfl

theorem prepare_no_adjust (brs : BaseRadioSet) :
    ∀ op, op ∈ brs.prepare → op.isAdjust = false := by
  intro op h
  simp only [prepare, List.mem_flatMap, List.mem_cons, List.mem_singleton] at h
  obtain ⟨i, _, h⟩ := h
  simp only [List.not_mem_nil, or_false] at h
  rcases h with rfl | rfl | rfl | rfl <;> simp [DevOp.isAdjust]

theorem capture_no_adjust (brs : BaseRadioSet) :
    ∀ op, op ∈ brs.capture → op.isAdjust = false := by
  intro op h
  simp only [capture, List.mem_flatMap, List.mem_append] at h
  obtain ⟨i, _, (h | h) | h⟩ := h
  · simp only [armRound, List.mem_map] at h
    obtain ⟨j, _, rfl⟩ := h
    split_ifs <;> rfl
  · simp only [radioTrigger, List.mem_map] at h
    obtain ⟨c, _, rfl⟩ := h
    simp [DevOp.isAdjust]
  · simp only [readRound, List.mem_flatMap] at h
    obtain ⟨j, _, h⟩ := h
    split_ifs at h
    · simp at h
    · simp only [List.mem_singleton] at h
      subst h
      rfl

theorem restore_no_adjust (brs : BaseRadioSet) :
    ∀ op, op ∈ brs.restore → op.isAdjust = false := by
  intro op h
  simp only [restore, List.mem_flatMap, List.mem_cons, List.mem_singleton] at h
  obtain ⟨i, _, h⟩ := h
  simp only [List.not_mem_nil, or_false] at h
  rcases h with rfl | rfl | rfl | rfl <;> rfl

/-- With as many iterations as the magnitude of `delta`, the first stepping
loop ends because its condition fails: the `delta` it leaves is not negative. -/
theorem stepNeg_exit (dev : Device) (fuel : Nat) :
    ∀ delta : Int, delta.natAbs ≤ fuel → 0 ≤ (stepNeg dev fuel delta).2 := by
  induction fuel with
  | zero =>
    intro delta h
    have h0 : delta = 0 := Int.natAbs_eq_zero.mp (Nat.le_zero.mp h)
    simp [stepNeg, h0]
  | succ fuel ih =>
    intro delta h
    unfold stepNeg
    split_ifs with hneg
    · exact ih (delta + 1) (by omega)
    · exact Int.not_lt.mp hneg

/-- With as many iterations as the magnitude of `delta`, the second stepping
loop ends because its condition fails: the `delta` it leaves is not positive. -/
theorem stepPos_exit (dev : Device) (fuel : Nat) :
    ∀ delta : Int, delta.natAbs ≤ fuel → (stepPos dev fuel delta).2 ≤ 0 := by
  induction fuel with
  | zero =>
    intro delta h
    have h0 : delta = 0 := Int.natAbs_eq_zero.mp (Nat.le_zero.mp h)
    simp [stepPos, h0]
  | succ fuel ih =>
    intro delta h
    unfold stepPos
    split_ifs with hpos
    · exact ih (delta - 1) (by omega)
    · exact Int.not_lt.mp hpos


/-! ## Claims on the calibration -/

/-- C5: on an array with fewer than 2 radios in cell 0, collectCSI returns,
appends no device operation to the trace and returns the adjust flag it was
given. -/
theorem collectCSI_fewer_than_two (brs : BaseRadioSet) (findLTS : LtsOracle) (w : World)
    (adjust : Bool) (hR : brs.R < 2) :
    ∃ w2, brs.collectCSI findLTS w adjust = .ok (w2, adjust) ∧ w2.trace = w.trace ∧
      brs.callOps findLTS w adjust = [] := by
  refine ⟨{ w with csiCalls := w.csiCalls + 1 }, collectCSI_guard brs findLTS w adjust hR,
    rfl, ?_⟩
  unfold callOps
  rw [afterCall_guard brs findLTS w adjust hR]
  exact List.drop_length _

/-- Witness of C5: the single-radio example array, entered with adjust true. -/
theorem collectCSI_fewer_than_two_witness :
    singleRadioArray.R < 2 ∧
      ∃ w2, singleRadioArray.collectCSI jitterLTS freshWorld true = .ok (w2, true) ∧
        w2.trace = freshWorld.trace ∧
        singleRadioArray.callOps jitterLTS freshWorld true = [] :=
  ⟨by decide, collectCSI_fewer_than_two singleRadioArray jitterLTS freshWorld true (by decide)⟩

/-- C8 (the code at the failing input): on two radios with the peak search
jitterLTS the first attempt measures offsets 15 and 12, is good and writes
three ADJUST_DELAYS steps, so the loop returns after one attempt with adjust
true; the verification call then measures offsets 13 and 12 and itself writes
an ADJUST_DELAYS step to radio 0. -/
theorem verification_call_adjusts :
    ∃ st r, twoRadioArray.attemptLoop jitterLTS freshWorld = .ok st ∧
      twoRadioArray.sampleCal jitterLTS freshWorld = .ok r ∧
      twoRadioArray.measured jitterLTS freshWorld = ([15, 12], true) ∧
      st.adjust = true ∧
      st.cal_cnt = 1 ∧
      (st.world.trace.filter DevOp.isAdjust).length = 3 ∧
      twoRadioArray.measured jitterLTS st.world = ([13, 12], true) ∧
      (r.1.trace.drop st.world.trace.length).filter DevOp.isAdjust
        = [DevOp.writeSetting (Device.radio 0 0) "ADJUST_DELAYS" "-1"] :=
  ⟨_, _, rfl, rfl, by decide, rfl, rfl, by decide, by decide, by decide⟩

/-- C9 (as stated, refuted): for a peak at index 100 the code stores offset 0,
while max(0, peak - seqLen / 2) with seqLen = 160 is 20. -/
theorem offset_not_half_seqLen :
    (peakExtraction 2 (fun _ => 100)).1.getD 0 0 = 0 ∧
      max 0 (100 - seqLen / 2) = 20 ∧
      (peakExtraction 2 (fun _ => 100)).1.getD 0 0 ≠ max 0 (100 - seqLen / 2) := by
  decide

/-- C9 (amended): for every radio i below R and every peak index returned for
its capture buffer, the stored offset is max(0, peak - 128). -/
theorem offset_eq_max (R : Nat) (lts : Nat → Int) (i : Nat) (hi : i < R) :
    (peakExtraction R lts).1.getD i 0 = max 0 (lts (peakEntry R i) - 128) := by
  rw [peakExtraction_offset R lts i hi]
  unfold offsetOfPeak
  split_ifs with h
  · rw [max_eq_left (by omega)]
  · rw [max_eq_right (by omega)]

/-- Witness of C9 (amended): radio 2 of three, whose buffer 2 peaks at 132. -/
theorem offset_eq_max_witness :
    (2 < 3) ∧ (peakExtraction 3 (fun k => 130 + k)).1.getD 2 0
      = max 0 ((130 + (peakEntry 3 2 : Int)) - 128) :=
  ⟨by decide, offset_eq_max 3 (fun k => 130 + k) 2 (by decide)⟩


/-- Filtering the operations of a loop over the radios with a test that only
the operations of radio `i` can pass leaves the filtered operations of radio `i`. -/
theorem filter_flatMap_range {α : Type} (f : Nat → List α) (p : α → Bool) (i : Nat)
    (h : ∀ j, j ≠ i → (f j).filter p = []) (R : Nat) :
    ((List.range R).flatMap f).filter p = if i < R then (f i).filter p else [] := by
  induction R with
  | zero => simp
  | succ R ih =>
    rw [List.range_succ, List.flatMap_append, List.filter_append, ih,
      List.flatMap_singleton]
    by_cases hlt : i < R
    · have hne : R ≠ i := by omega
      simp [hlt, h R hne, Nat.lt_succ_of_lt hlt]
    · by_cases heq : R = i
      · subst heq
        simp
      · have hnlt : ¬ i < R + 1 := by omega
        simp [hlt, hnlt, h R heq]

/-- Counting in a loop over `R` radios in which every radio contributes `c`. -/
theorem countP_flatMap_range {α : Type} (f : Nat → List α) (p : α → Bool) (c : Nat) (R : Nat)
    (h : ∀ j, j < R → (f j).countP p = c) :
    ((List.range R).flatMap f).countP p = R * c := by
  induction R with
  | zero => simp
  | succ R ih =>
    rw [List.range_succ, List.flatMap_append, List.countP_append,
      ih (fun j hj => h j (Nat.lt_succ_of_lt hj)), List.flatMap_singleton,
      h R (Nat.lt_succ_self R), Nat.succ_mul]

/-- A buffer index `t * R + j` with `j < R` determines `t` and `j`. -/
theorem entry_inj (R t j u d : Nat) (hj : j < R) (hd : d < R)
    (h : t * R + j = u * R + d) : t = u ∧ j = d := by
  have hmod : (t * R + j) % R = (u * R + d) % R := by rw [h]
  rw [Nat.add_comm (t * R), Nat.add_comm (u * R), Nat.add_mul_mod_self_right,
    Nat.add_mul_mod_self_right, Nat.mod_eq_of_lt hj, Nat.mod_eq_of_lt hd] at hmod
  subst hmod
  have hR : 0 < R := by omega
  have hmul : t * R = u * R := by omega
  exact ⟨Nat.eq_of_mul_eq_mul_right hR hmul, rfl⟩

/-! ## Claims on the trigger owner, the searched buffer and the drain loop -/

/-- C16: for every cell index c, baseRadio(c) is radio 0 of cell c exactly when
the hub list is empty, and is hub c otherwise; when the hub list is empty
radioTrigger is one TRIGGER_GEN write to radio 0 of each cell, in cell order,
and writes to no other device. -/
theorem baseRadio_owner (brs : BaseRadioSet) :
    (∀ c, brs.baseRadio c = Device.radio c 0 ↔ brs.hubs = 0) ∧
    (∀ c, brs.hubs ≠ 0 → brs.baseRadio c = Device.hub c) ∧
    (brs.hubs = 0 →
      brs.radioTrigger = (List.range brs.cfg.nCells).map
        (fun c => DevOp.writeSetting (Device.radio c 0) "TRIGGER_GEN" "")) ∧
    (brs.hubs = 0 → ∀ op, op ∈ brs.radioTrigger →
      ∃ c, c < brs.cfg.nCells ∧ op = DevOp.writeSetting (Device.radio c 0) "TRIGGER_GEN" "") := by
  have hno : brs.hubs = 0 → brs.radioTrigger = (List.range brs.cfg.nCells).map
      (fun c => DevOp.writeSetting (Device.radio c 0) "TRIGGER_GEN" "") := by
    intro h
    simp [radioTrigger, baseRadio, h]
  refine ⟨?_, ?_, hno, ?_⟩
  · intro c
    unfold baseRadio
    by_cases h : brs.hubs = 0 <;> simp [h]
  · intro c h
    simp [baseRadio, h]
  · intro h op hop
    rw [hno h, List.mem_map] at hop
    obtain ⟨c, hc, rfl⟩ := hop
    exact ⟨c, List.mem_range.mp hc, rfl⟩

/-- Membership of a read in the capture round: transmitter `t` and receiver
`j`, both below `R` and different, have buffer `t * R + j` read by radio `j`. -/
theorem recv_mem_capture (brs : BaseRadioSet) (t j : Nat) (ht : t < brs.R) (hj : j < brs.R)
    (hne : j ≠ t) :
    DevOp.recv (Device.radio 0 j) (t * brs.R + j) brs.cfg.sampsPerSymbol ∈ brs.capture := by
  unfold capture
  rw [List.mem_flatMap]
  refine ⟨t, List.mem_range.mpr ht, ?_⟩
  rw [List.mem_append]
  right
  unfold readRound
  rw [List.mem_flatMap]
  exact ⟨j, List.mem_range.mpr hj, by simp [hne]⟩

/-- C17: on at least 2 radios, the buffer index searched for radio i below R is
below R * R, has receiver i (its remainder by R) and transmitter (its quotient
by R) 1 for i = 0 and 0 otherwise, is not on the diagonal, and is the index of
a buffer that a read of radio i in the capture round fills. -/
theorem peakEntry_filled (brs : BaseRadioSet) (i : Nat) (hR : 2 ≤ brs.R) (hi : i < brs.R) :
    peakEntry brs.R i < brs.R * brs.R ∧
    peakEntry brs.R i % brs.R = i ∧
    peakEntry brs.R i / brs.R = (if i = 0 then 1 else 0) ∧
    peakEntry brs.R i / brs.R ≠ peakEntry brs.R i % brs.R ∧
    (∀ d, d < brs.R → peakEntry brs.R i ≠ d * brs.R + d) ∧
    DevOp.recv (Device.radio 0 i) (peakEntry brs.R i) brs.cfg.sampsPerSymbol ∈ brs.capture := by
  have hpos : 0 < brs.R := by omega
  have hk : peakEntry brs.R i = (if i = 0 then 1 else 0) * brs.R + i := by
    simp [peakEntry, ref_ant, ref_offset]
  have hmod : peakEntry brs.R i % brs.R = i := by
    rw [hk, Nat.add_comm, Nat.add_mul_mod_self_right, Nat.mod_eq_of_lt hi]
  have hdiv : peakEntry brs.R i / brs.R = (if i = 0 then 1 else 0) := by
    rw [hk, Nat.add_comm, Nat.add_mul_div_right _ _ hpos, Nat.div_eq_of_lt hi, Nat.zero_add]
  have hne : (if i = 0 then 1 else 0) ≠ i := by
    by_cases h0 : i = 0 <;> simp [h0]
    omega
  have ht : (if i = 0 then 1 else 0) < brs.R := by
    by_cases h0 : i = 0 <;> simp [h0] <;> omega
  refine ⟨?_, hmod, hdiv, ?_, ?_, ?_⟩
  · rw [hk]
    have h2 : (if i = 0 then 1 else 0) * brs.R + i < 2 * brs.R := by
      by_cases h0 : i = 0 <;> simp [h0] <;> omega
    exact Nat.lt_of_lt_of_le h2 (Nat.mul_le_mul_right brs.R hR)
  · rw [hmod, hdiv]
    exact hne
  · intro d hd h
    rw [hk] at h
    obtain ⟨h1, h2⟩ := entry_inj brs.R _ i d d hi hd h
    exact hne (h1.trans h2.symm)
  · rw [hk]
    exact recv_mem_capture brs _ i ht hi (fun h => hne h.symm)

/-- Witness of C17: radio 0 of the two-radio example array searches buffer 2. -/
theorem peakEntry_filled_witness :
    2 ≤ twoRadioArray.R ∧ 0 < twoRadioArray.R ∧ peakEntry twoRadioArray.R 0 = 2 ∧
      peakEntry twoRadioArray.R 0 < twoRadioArray.R * twoRadioArray.R :=
  ⟨by decide, by decide, by decide,
    (peakEntry_filled twoRadioArray 0 (by decide) (by decide)).1⟩

/-- The drain loop entered with a value other than -1 in `r` after `i` reads,
when read `i + n` is the first from `i` on to return -1: it makes `n + 1` more
reads and stops, given fuel for them. -/
theorem drainLoop_first (stream : Nat → Int) (n : Nat) :
    ∀ (fuel i : Nat) (r : Int), r ≠ -1 → n < fuel → stream (i + n) = -1 →
      (∀ m, m < n → stream (i + m) ≠ -1) →
      Radio.drainLoop stream fuel r i = some (i + n + 1) := by
  induction n with
  | zero =>
    intro fuel i r hr hf hlast _
    obtain ⟨f, rfl⟩ : ∃ f, fuel = f + 1 := ⟨fuel - 1, by omega⟩
    rw [Nat.add_zero] at hlast
    rw [Radio.drainLoop, if_pos hr, hlast]
    cases f <;> simp [Radio.drainLoop]
  | succ n ih =>
    intro fuel i r hr hf hlast hbefore
    obtain ⟨f, rfl⟩ : ∃ f, fuel = f + 1 := ⟨fuel - 1, by omega⟩
    rw [Radio.drainLoop, if_pos hr]
    have h0 : stream i ≠ -1 := by
      have := hbefore 0 (Nat.succ_pos n)
      rwa [Nat.add_zero] at this
    have h := ih f (i + 1) (stream i) h0 (by omega)
      (by rw [Nat.add_assoc, Nat.add_comm 1 n]; exact hlast)
      (fun m hm => by
        rw [Nat.add_assoc, Nat.add_comm 1 m]
        exact hbefore (m + 1) (by omega))
    rw [h]
    congr 1
    omega

/-- The drain loop entered with a value other than -1 in `r` never stops on a
stream that does not return -1 from read `i` on. -/
theorem drainLoop_never (stream : Nat → Int) (fuel : Nat) :
    ∀ (i : Nat) (r : Int), r ≠ -1 → (∀ m, i ≤ m → stream m ≠ -1) →
      Radio.drainLoop stream fuel r i = none := by
  induction fuel with
  | zero =>
    intro i r hr _
    simp [Radio.drainLoop, hr]
  | succ fuel ih =>
    intro i r hr hall
    rw [Radio.drainLoop, if_pos hr]
    exact ih (i + 1) (stream i) (hall i (Nat.le_refl i)) (fun m hm => hall m (by omega))

/-- A stream that returns -1 at some read has a first read that does. -/
theorem first_minus_one (stream : Nat → Int) (n : Nat) (h : stream n = -1) :
    ∃ k, k ≤ n ∧ stream k = -1 ∧ ∀ m, m < k → stream m ≠ -1 := by
  induction n using Nat.strong_induction_on with
  | _ n ih =>
    by_cases hall : ∀ m, m < n → stream m ≠ -1
    · exact ⟨n, Nat.le_refl n, h, hall⟩
    · push_neg at hall
      obtain ⟨m, hm, hs⟩ := hall
      obtain ⟨k, hk, hks, hkb⟩ := ih m hm hs
      exact ⟨k, by omega, hks, hkb⟩

/-- C18: for every sequence of readStream return values, if read number n
(counted from 0) is the first to return -1, drain_buffers stops after exactly
n + 1 reads, whatever the earlier reads returned and however much more fuel it
is given; it therefore makes at least one read; on a stream that never
returns -1 it never stops; so it stops if and only if some read returns -1.
On the stream 512, -2, -1 it makes three reads. -/
theorem drain_buffers_reads (stream : Nat → Int) :
    (∀ n, stream n = -1 → (∀ m, m < n → stream m ≠ -1) →
      ∀ fuel, n < fuel → Radio.drain_buffers stream fuel = some (n + 1)) ∧
    (∀ fuel k, Radio.drain_buffers stream fuel = some k → 1 ≤ k ∧ stream (k - 1) = -1 ∧
      ∀ m, m < k - 1 → stream m ≠ -1) ∧
    ((∀ n, stream n ≠ -1) → ∀ fuel, Radio.drain_buffers stream fuel = none) ∧
    ((∃ fuel k, Radio.drain_buffers stream fuel = some k) ↔ ∃ n, stream n = -1) ∧
    Radio.drain_buffers exampleStream 3 = some 3 := by
  have hfirst : ∀ n, stream n = -1 → (∀ m, m < n → stream m ≠ -1) →
      ∀ fuel, n < fuel → Radio.drain_buffers stream fuel = some (n + 1) := by
    intro n hn hb fuel hf
    have h := drainLoop_first stream n fuel 0 0 (by decide) hf
      (by rw [Nat.zero_add]; exact hn) (fun m hm => by rw [Nat.zero_add]; exact hb m hm)
    rw [Nat.zero_add] at h
    exact h
  have hnever : (∀ n, stream n ≠ -1) → ∀ fuel, Radio.drain_buffers stream fuel = none :=
    fun hall fuel => drainLoop_never stream fuel 0 0 (by decide) (fun m _ => hall m)
  have hstop : ∀ fuel k, Radio.drain_buffers stream fuel = some k → ∃ n, stream n = -1 := by
    intro fuel k hk
    by_contra hno
    push_neg at hno
    rw [hnever hno fuel] at hk
    exact Option.noConfusion hk
  refine ⟨hfirst, ?_, hnever, ⟨fun ⟨fuel, k, hk⟩ => hstop fuel k hk, ?_⟩, by decide⟩
  · intro fuel k hk
    obtain ⟨n, hn⟩ := hstop fuel k hk
    obtain ⟨j, _, hj, hjb⟩ := first_minus_one stream n hn
    by_cases hf : j < fuel
    · rw [hfirst j hj hjb fuel hf] at hk
      cases hk
      exact ⟨Nat.succ_pos j, hj, hjb⟩
    · exfalso
      have hcut : Radio.drain_buffers (fun m => if m < fuel then stream m else 0) fuel
          = Radio.drain_buffers stream fuel := by
        have hgen : ∀ (f i : Nat) (r : Int), i + f ≤ fuel →
            Radio.drainLoop (fun m => if m < fuel then stream m else 0) f r i
              = Radio.drainLoop stream f r i := by
          intro f
          induction f with
          | zero => intro i r _; rfl
          | succ f ih =>
            intro i r hle
            rw [Radio.drainLoop, Radio.drainLoop]
            have hi : i < fuel := by omega
            simp only [hi, if_true]
            rw [ih (i + 1) (stream i) (by omega)]
        exact hgen fuel 0 0 (by omega)
      have hnone : Radio.drain_buffers (fun m => if m < fuel then stream m else 0) fuel = none := by
        apply drainLoop_never _ fuel 0 0 (by decide)
        intro m _
        by_cases hm : m < fuel
        · simp only [hm, if_true]
          exact hjb m (by omega)
        · simp only [hm, if_false]
          decide
      rw [hcut, hk] at hnone
      exact Option.noConfusion hnone
  · rintro ⟨n, hn⟩
    obtain ⟨j, _, hj, hjb⟩ := first_minus_one stream n hn
    exact ⟨j + 1, j + 1, hfirst j hj hjb (j + 1) (Nat.lt_succ_self j)⟩

/-! ## Lemmas on the stepping loops and the adjustment pass -/

/-- The first stepping loop, given at least as many iterations as the magnitude
of `delta`: one write of "-1" per unit below zero, and it leaves `max delta 0`. -/
theorem stepNeg_eq (dev : Device) (fuel : Nat) :
    ∀ delta : Int, delta.natAbs ≤ fuel →
      stepNeg dev fuel delta
        = (List.replicate (-delta).toNat (DevOp.writeSetting dev "ADJUST_DELAYS" "-1"),
           max delta 0) := by
  induction fuel with
  | zero =>
    intro delta h
    have h0 : delta = 0 := Int.natAbs_eq_zero.mp (Nat.le_zero.mp h)
    subst h0
    rfl
  | succ fuel ih =>
    intro delta h
    unfold stepNeg
    split_ifs with hneg
    · rw [ih (delta + 1) (by omega)]
      have h1 : (-delta).toNat = (-(delta + 1)).toNat + 1 := by omega
      have h2 : max (delta + 1) 0 = max delta 0 := by
        rw [max_eq_right (by omega), max_eq_right (by omega)]
      simp only [h1, h2, List.replicate_succ]
    · have h1 : (-delta).toNat = 0 := by omega
      rw [h1, max_eq_left (by omega)]
      rfl

/-- The second stepping loop, given at least as many iterations as the
magnitude of `delta`: one write of "1" per unit above zero, and it leaves
`min delta 0`. -/
theorem stepPos_eq (dev : Device) (fuel : Nat) :
    ∀ delta : Int, delta.natAbs ≤ fuel →
      stepPos dev fuel delta
        = (List.replicate delta.toNat (DevOp.writeSetting dev "ADJUST_DELAYS" "1"),
           min delta 0) := by
  induction fuel with
  | zero =>
    intro delta h
    have h0 : delta = 0 := Int.natAbs_eq_zero.mp (Nat.le_zero.mp h)
    subst h0
    rfl
  | succ fuel ih =>
    intro delta h
    unfold stepPos
    split_ifs with hpos
    · rw [ih (delta - 1) (by omega)]
      have h1 : delta.toNat = (delta - 1).toNat + 1 := by omega
      have h2 : min (delta - 1) 0 = min delta 0 := by
        rw [min_eq_right (by omega), min_eq_right (by omega)]
      simp only [h1, h2, List.replicate_succ]
    · have h1 : delta.toNat = 0 := by omega
      rw [h1, min_eq_left (by omega)]
      rfl

/-- The writes of the adjustment of radio `i`: as many steps as the magnitude
of its delta, all "1" for a positive delta and all "-1" for a negative one. -/
theorem adjustRadio_eq (offset : List Int) (i : Nat) :
    adjustRadio offset i
      = List.replicate (adjustDelta offset i).natAbs
          (DevOp.writeSetting (Device.radio 0 i) "ADJUST_DELAYS"
            (if 0 < adjustDelta offset i then "1" else "-1")) := by
  have hunf : adjustRadio offset i
      = (stepNeg (Device.radio 0 i) (adjustDelta offset i).natAbs (adjustDelta offset i)).1
        ++ (stepPos (Device.radio 0 i)
            (stepNeg (Device.radio 0 i) (adjustDelta offset i).natAbs
              (adjustDelta offset i)).2.natAbs
            (stepNeg (Device.radio 0 i) (adjustDelta offset i).natAbs
              (adjustDelta offset i)).2).1 := rfl
  rw [hunf, stepNeg_eq _ _ _ (Nat.le_refl _)]
  simp only []
  rw [stepPos_eq _ _ _ (Nat.le_refl _)]
  simp only []
  by_cases hpos : 0 < adjustDelta offset i
  · have h1 : (-adjustDelta offset i).toNat = 0 := by omega
    have h2 : (max (adjustDelta offset i) 0).toNat = (adjustDelta offset i).natAbs := by
      rw [max_eq_left (by omega)]
      omega
    rw [h1, h2, if_pos hpos]
    rfl
  · have h1 : (-adjustDelta offset i).toNat = (adjustDelta offset i).natAbs := by omega
    have h2 : (max (adjustDelta offset i) 0).toNat = 0 := by
      rw [max_eq_right (by omega)]
      rfl
    rw [h1, h2, if_neg hpos]
    simp

theorem netAdjust_append (a b : List DevOp) (i : Nat) :
    netAdjust (a ++ b) i = netAdjust a i + netAdjust b i := by
  simp [netAdjust, List.sum_append]

/-- Operations other than ADJUST_DELAYS writes step no delay. -/
theorem netAdjust_no_adjust (l : List DevOp) (i : Nat)
    (h : ∀ op, op ∈ l → op.isAdjust = false) : netAdjust l i = 0 := by
  induction l with
  | nil => rfl
  | cons op l ih =>
    have hop : DevOp.stepOn i op = 0 := by
      have h1 := h op (List.mem_cons_self op l)
      cases op <;> simp_all [DevOp.stepOn, DevOp.isAdjust]
    have hl := ih (fun o ho => h o (List.mem_cons_of_mem op ho))
    simp only [netAdjust] at hl
    simp [netAdjust, hop, hl]

theorem netAdjust_replicate (n : Nat) (j i : Nat) (v : String) :
    netAdjust (List.replicate n (DevOp.writeSetting (Device.radio 0 j) "ADJUST_DELAYS" v)) i
      = n * DevOp.stepOn i (DevOp.writeSetting (Device.radio 0 j) "ADJUST_DELAYS" v) := by
  induction n with
  | zero => simp [netAdjust]
  | succ n ih =>
    simp only [netAdjust, List.replicate_succ, List.map_cons, List.sum_cons] at ih ⊢
    rw [ih]
    push_cast
    ring

/-- The steps written to radio `j` sum to its delta and step no other radio. -/
theorem netAdjust_adjustRadio (offset : List Int) (j i : Nat) :
    netAdjust (adjustRadio offset j) i = if j = i then adjustDelta offset j else 0 := by
  rw [adjustRadio_eq, netAdjust_replicate]
  by_cases hji : j = i
  · subst hji
    by_cases hpos : 0 < adjustDelta offset j
    · have hn : ((adjustDelta offset j).natAbs : Int) = adjustDelta offset j := by omega
      rw [hn]
      simp [DevOp.stepOn, hpos]
    · have hn : ((adjustDelta offset j).natAbs : Int) = -adjustDelta offset j := by omega
      rw [hn]
      simp [DevOp.stepOn, hpos]
  · have hdev : Device.radio 0 j ≠ Device.radio 0 i := by
      intro h
      cases h
      exact hji rfl
    simp [DevOp.stepOn, hdev, hji]

/-- The adjustment pass steps radio `i` below `R` by its delta in sum. -/
theorem netAdjust_adjustDelays (offset : List Int) (i R : Nat) :
    netAdjust (adjustDelays R offset) i = if i < R then adjustDelta offset i else 0 := by
  induction R with
  | zero => simp [adjustDelays, netAdjust]
  | succ R ih =>
    have hsplit : adjustDelays (R + 1) offset = adjustDelays R offset ++ adjustRadio offset R := by
      simp [adjustDelays, List.range_succ, List.flatMap_append]
    rw [hsplit, netAdjust_append, ih, netAdjust_adjustRadio]
    by_cases hlt : i < R
    · have hne : R ≠ i := by omega
      simp [hlt, hne, Nat.lt_succ_of_lt hlt]
    · by_cases heq : R = i
      · subst heq
        simp
      · have hnlt : ¬ i < R + 1 := by omega
        simp [hlt, hnlt, heq]

/-- The operations of a call on at least 2 radios whose symbols hold prefix and
pilot: drain, preparation, capture round, the adjustment pass when adjust is
still true after the goodness check, and the restore. -/
theorem callOps_eq (brs : BaseRadioSet) (findLTS : LtsOracle) (w : World) (adjust : Bool)
    (hR : 2 ≤ brs.R) (hS : brs.cfg.prefixLen + 160 ≤ brs.cfg.sampsPerSymbol) :
    brs.callOps findLTS w adjust
      = brs.drainAll ++ brs.prepare ++ brs.capture
        ++ (if (adjust && (brs.measured findLTS w).2) = true
            then adjustDelays brs.R (brs.measured findLTS w).1 else [])
        ++ brs.restore := by
  unfold callOps
  rw [afterCall_frame brs findLTS w adjust hR hS]
  unfold captureAndAdjust
  simp only [capturedTrace]
  generalize (adjust && (brs.measured findLTS w).2) = b
  cases b
  · simp only [Bool.false_eq_true, if_false, List.append_assoc, List.nil_append]
    exact List.drop_left _ _
  · simp only [if_true, List.append_assoc]
    exact List.drop_left _ _

/-- A call on at least 2 radios whose symbols are shorter than prefix and
pilot issues no operation. -/
theorem callOps_short (brs : BaseRadioSet) (findLTS : LtsOracle) (w : World) (adjust : Bool)
    (hR : 2 ≤ brs.R) (hS : brs.cfg.sampsPerSymbol < brs.cfg.prefixLen + 160) :
    brs.callOps findLTS w adjust = [] := by
  unfold callOps
  rw [afterCall_short brs findLTS w adjust hR hS]
  exact List.drop_length _

/-- A call on at least 2 radios that returns with adjust true ran on symbols
that hold prefix and pilot, with adjust true on entry and a good capture. -/
theorem adjust_of_ok (brs : BaseRadioSet) (findLTS : LtsOracle) (w w2 : World)
    (adjust : Bool) (hR : 2 ≤ brs.R)
    (hrun : brs.collectCSI findLTS w adjust = .ok (w2, true)) :
    brs.cfg.prefixLen + 160 ≤ brs.cfg.sampsPerSymbol ∧
      (adjust && (brs.measured findLTS w).2) = true := by
  have hS := frame_of_ok brs findLTS w adjust _ hR hrun
  refine ⟨hS, ?_⟩
  rw [collectCSI_frame brs findLTS w adjust hR hS] at hrun
  have h2 : (brs.captureAndAdjust findLTS w adjust).2 = true :=
    congrArg Prod.snd (Except.ok.inj hrun)
  exact h2

/-- When a call on at least 2 radios returns with adjust true, no offset below
`R` is zero. -/
theorem offsets_nonzero_of_adjust (brs : BaseRadioSet) (findLTS : LtsOracle) (w w2 : World)
    (adjust : Bool) (hR : 2 ≤ brs.R)
    (hrun : brs.collectCSI findLTS w adjust = .ok (w2, true)) :
    ∀ i, i < brs.R → (brs.measured findLTS w).1.getD i 0 ≠ 0 := by
  have h := (adjust_of_ok brs findLTS w w2 adjust hR hrun).2
  rw [Bool.and_eq_true] at h
  exact (peakExtraction_good brs.R (findLTS (brs.capturedTrace w))).mp h.2

/-- The writes of `ADJUST_DELAYS` to radio `i` among the writes of the
adjustment of radio `j`. -/
theorem adjustRadio_filter (offset : List Int) (i j : Nat) :
    (adjustRadio offset j).filter
        (fun op => op.isAdjust && decide (op.device = Device.radio 0 i))
      = if j = i then adjustRadio offset i else [] := by
  by_cases hji : j = i
  · subst hji
    rw [if_pos rfl, List.filter_eq_self]
    intro op hop
    rw [adjustRadio_eq] at hop
    rw [List.eq_of_mem_replicate hop]
    simp [DevOp.isAdjust, DevOp.device]
  · rw [if_neg hji, List.filter_eq_nil_iff]
    intro op hop
    rw [adjustRadio_eq] at hop
    rw [List.eq_of_mem_replicate hop]
    have hdev : Device.radio 0 j ≠ Device.radio 0 i := by
      intro h
      cases h
      exact hji rfl
    simp [DevOp.isAdjust, DevOp.device, hdev]

/-- Filtering a list without ADJUST_DELAYS writes for such writes leaves nothing. -/
theorem filter_adjust_nil (l : List DevOp) (d : Device)
    (h : ∀ op, op ∈ l → op.isAdjust = false) :
    l.filter (fun op => op.isAdjust && decide (op.device = d)) = [] := by
  rw [List.filter_eq_nil_iff]
  intro op hop
  simp [h op hop]

/-- C11: when the adjustment pass of a collectCSI call on at least 2 radios
runs (the call returns with adjust true), then for every radio i below R, with
delta = offset[1] - offset[i]: the delta the code computes is this delta; the
ADJUST_DELAYS writes the call issues to radio i are exactly |delta| writes, all
"1" when delta is positive and all "-1" otherwise (none when delta = 0); the
first stepping loop, given |delta| or more iterations, ends with its condition
false, and so does the second from the value the first leaves, which it brings
to 0; and the steps written to radio i sum to delta. -/
theorem adjust_unit_steps (brs : BaseRadioSet) (findLTS : LtsOracle) (w w2 : World)
    (adjust : Bool) (i : Nat) (hR : 2 ≤ brs.R)
    (hrun : brs.collectCSI findLTS w adjust = .ok (w2, true)) (hi : i < brs.R) :
    adjustDelta (brs.measured findLTS w).1 i
      = (brs.measured findLTS w).1.getD 1 0 - (brs.measured findLTS w).1.getD i 0 ∧
    (brs.callOps findLTS w adjust).filter
        (fun op => op.isAdjust && decide (op.device = Device.radio 0 i))
      = List.replicate (adjustDelta (brs.measured findLTS w).1 i).natAbs
          (DevOp.writeSetting (Device.radio 0 i) "ADJUST_DELAYS"
            (if 0 < adjustDelta (brs.measured findLTS w).1 i then "1" else "-1")) ∧
    (∀ fuel, (adjustDelta (brs.measured findLTS w).1 i).natAbs ≤ fuel →
      stepNeg (Device.radio 0 i) fuel (adjustDelta (brs.measured findLTS w).1 i)
        = stepNeg (Device.radio 0 i) (adjustDelta (brs.measured findLTS w).1 i).natAbs
            (adjustDelta (brs.measured findLTS w).1 i) ∧
      ¬ (stepNeg (Device.radio 0 i) fuel (adjustDelta (brs.measured findLTS w).1 i)).2 < 0 ∧
      ∀ fuel2,
        (stepNeg (Device.radio 0 i) fuel
          (adjustDelta (brs.measured findLTS w).1 i)).2.natAbs ≤ fuel2 →
        (stepPos (Device.radio 0 i) fuel2
          (stepNeg (Device.radio 0 i) fuel
            (adjustDelta (brs.measured findLTS w).1 i)).2).2 = 0) ∧
    netAdjust (brs.callOps findLTS w adjust) i = adjustDelta (brs.measured findLTS w).1 i ∧
    w2.trace = w.trace ++ brs.callOps findLTS w adjust := by
  have hnz := offsets_nonzero_of_adjust brs findLTS w w2 adjust hR hrun i hi
  obtain ⟨hS, hcond⟩ := adjust_of_ok brs findLTS w w2 adjust hR hrun
  have hops := callOps_eq brs findLTS w adjust hR hS
  rw [if_pos hcond] at hops
  refine ⟨?_, ?_, ?_, ?_, ?_⟩
  · unfold adjustDelta
    rw [if_neg hnz]
    rfl
  · rw [hops]
    simp only [List.filter_append]
    rw [filter_adjust_nil _ _ (drainAll_no_adjust brs),
      filter_adjust_nil _ _ (prepare_no_adjust brs),
      filter_adjust_nil _ _ (capture_no_adjust brs),
      filter_adjust_nil _ _ (restore_no_adjust brs)]
    unfold adjustDelays
    rw [filter_flatMap_range _ _ i
      (fun j hj => by rw [adjustRadio_filter, if_neg hj]) brs.R,
      if_pos hi, adjustRadio_filter, if_pos rfl, adjustRadio_eq]
    simp
  · intro fuel hf
    rw [stepNeg_eq _ fuel _ hf, stepNeg_eq _ _ _ (Nat.le_refl _)]
    refine ⟨rfl, ?_, ?_⟩
    · simp only []
      omega
    · intro fuel2 hf2
      simp only [] at hf2 ⊢
      rw [stepPos_eq _ fuel2 _ hf2]
      simp only []
      omega
  · rw [hops]
    simp only [netAdjust_append]
    rw [netAdjust_no_adjust _ _ (drainAll_no_adjust brs),
      netAdjust_no_adjust _ _ (prepare_no_adjust brs),
      netAdjust_no_adjust _ _ (capture_no_adjust brs),
      netAdjust_no_adjust _ _ (restore_no_adjust brs),
      netAdjust_adjustDelays, if_pos hi]
    simp
  · have hw2 : w2 = (brs.captureAndAdjust findLTS w adjust).1 := by
      rw [collectCSI_frame brs findLTS w adjust hR hS] at hrun
      exact (congrArg Prod.fst (Except.ok.inj hrun)).symm
    rw [hw2, hops]
    unfold captureAndAdjust
    simp only [hcond, if_true, capturedTrace, List.append_assoc]

/-- Witness of C11: the first attempt on the two-radio example, radio 0, whose
delta is 12 - 15 = -3. -/
theorem adjust_unit_steps_witness :
    2 ≤ twoRadioArray.R ∧ 0 < twoRadioArray.R ∧
      ∃ w2, twoRadioArray.collectCSI jitterLTS freshWorld true = .ok (w2, true) ∧
        adjustDelta (twoRadioArray.measured jitterLTS freshWorld).1 0 = -3 ∧
        netAdjust (twoRadioArray.callOps jitterLTS freshWorld true) 0 = -3 := by
  have hrun : twoRadioArray.collectCSI jitterLTS freshWorld true
      = .ok ((twoRadioArray.captureAndAdjust jitterLTS freshWorld true).1, true) := rfl
  have h := adjust_unit_steps twoRadioArray jitterLTS freshWorld _ true 0
    (by decide) hrun (by decide)
  have hd : adjustDelta (twoRadioArray.measured jitterLTS freshWorld).1 0 = -3 := by decide
  exact ⟨by decide, by decide, _, hrun, hd, h.2.2.2.1.trans hd⟩

/-- C19: when the adjustment pass of a collectCSI call on at least 2 radios is
entered (the call goes on to return with adjust true after the goodness
check), every offset below R is nonzero, so for every radio i below R the
guarded delta of the code is offset[1] - offset[i]; the reference radio 1 gets
delta 0 and no write. -/
theorem adjust_guard_dead (brs : BaseRadioSet) (findLTS : LtsOracle) (w w2 : World)
    (adjust : Bool) (hR : 2 ≤ brs.R)
    (hrun : brs.collectCSI findLTS w adjust = .ok (w2, true)) :
    (∀ i, i < brs.R →
      (brs.measured findLTS w).1.getD i 0 ≠ 0 ∧
      adjustDelta (brs.measured findLTS w).1 i
        = (brs.measured findLTS w).1.getD 1 0 - (brs.measured findLTS w).1.getD i 0) ∧
    adjustDelta (brs.measured findLTS w).1 1 = 0 ∧
    adjustRadio (brs.measured findLTS w).1 1 = [] := by
  have hnz := offsets_nonzero_of_adjust brs findLTS w w2 adjust hR hrun
  have hd : ∀ i, i < brs.R → adjustDelta (brs.measured findLTS w).1 i
      = (brs.measured findLTS w).1.getD 1 0 - (brs.measured findLTS w).1.getD i 0 := by
    intro i hi
    unfold adjustDelta
    rw [if_neg (hnz i hi)]
    rfl
  have h1 : adjustDelta (brs.measured findLTS w).1 1 = 0 := by
    rw [hd 1 (by omega)]
    omega
  refine ⟨fun i hi => ⟨hnz i hi, hd i hi⟩, h1, ?_⟩
  rw [adjustRadio_eq, h1]
  rfl

/-- Witness of C19: the first attempt on the two-radio example array. -/
theorem adjust_guard_dead_witness :
    2 ≤ twoRadioArray.R ∧
      ∃ w2, twoRadioArray.collectCSI jitterLTS freshWorld true = .ok (w2, true) ∧
        adjustDelta (twoRadioArray.measured jitterLTS freshWorld).1 1 = 0 :=
  have hrun : twoRadioArray.collectCSI jitterLTS freshWorld true
      = .ok ((twoRadioArray.captureAndAdjust jitterLTS freshWorld true).1, true) := rfl
  ⟨by decide, _, hrun,
    (adjust_guard_dead twoRadioArray jitterLTS freshWorld _ true (by decide) hrun).2.1⟩


/-! ## Lemmas on the capture round -/

theorem capture_eq_subRounds (brs : BaseRadioSet) :
    brs.capture = (List.range brs.R).flatMap brs.subRound := rfl

theorem mem_armRound (brs : BaseRadioSet) (i : Nat) (op : DevOp) (hop : op ∈ brs.armRound i) :
    ∃ j, j < brs.R ∧
      ((j = i ∧ op = DevOp.xmit (Device.radio 0 j) brs.cfg.sampsPerSymbol 3) ∨
       (j ≠ i ∧ op = DevOp.activateRecv (Device.radio 0 j) brs.cfg.sampsPerSymbol)) := by
  simp only [armRound, List.mem_map, List.mem_range] at hop
  obtain ⟨j, hj, rfl⟩ := hop
  refine ⟨j, hj, ?_⟩
  by_cases h : j = i
  · exact Or.inl ⟨h, by rw [if_pos h]⟩
  · exact Or.inr ⟨h, by rw [if_neg h]⟩

theorem mem_readRound (brs : BaseRadioSet) (i : Nat) (op : DevOp) (hop : op ∈ brs.readRound i) :
    ∃ j, j < brs.R ∧ j ≠ i ∧
      op = DevOp.recv (Device.radio 0 j) (i * brs.R + j) brs.cfg.sampsPerSymbol := by
  simp only [readRound, List.mem_flatMap, List.mem_range] at hop
  obtain ⟨j, hj, hop⟩ := hop
  by_cases h : j = i
  · simp [h] at hop
  · rw [if_neg h, List.mem_singleton] at hop
    exact ⟨j, hj, h, hop⟩

theorem range_split (i R : Nat) (hi : i < R) :
    List.range R = List.range i ++ i :: List.range' (i + 1) (R - (i + 1)) := by
  have h1 : List.range' 0 i ++ List.range' (0 + 1 * i) (R - i) = List.range' 0 (R - i + i) :=
    List.range'_append 0 i (R - i) 1
  have h2 : R - i = (R - (i + 1)) + 1 := by omega
  have h3 : R - i + i = R := by omega
  rw [List.range_eq_range', List.range_eq_range', ← h3, ← h1, h3, h2, List.range'_succ]
  simp

/-- Outside the capture round a call transmits nothing, arms and reads no
receive, and fires no trigger. -/
theorem outside_capture (brs : BaseRadioSet) (offset : List Int) (op : DevOp)
    (hop : op ∈ brs.drainAll ∨ op ∈ brs.prepare ∨ op ∈ adjustDelays brs.R offset ∨
      op ∈ brs.restore) :
    op.isXmit = false ∧ op.isActivateRecv = false ∧ op.isRecv = false ∧
      op.isTrigger = false := by
  rcases hop with h | h | h | h
  · simp only [drainAll, List.mem_map] at h
    obtain ⟨i, _, rfl⟩ := h
    exact ⟨rfl, rfl, rfl, rfl⟩
  · simp only [prepare, List.mem_flatMap, List.mem_cons, List.mem_singleton] at h
    obtain ⟨i, _, h⟩ := h
    simp only [List.not_mem_nil, or_false] at h
    rcases h with rfl | rfl | rfl | rfl <;>
      simp [DevOp.isXmit, DevOp.isActivateRecv, DevOp.isRecv, DevOp.isTrigger]
  · simp only [adjustDelays, List.mem_flatMap] at h
    obtain ⟨i, _, h⟩ := h
    rw [adjustRadio_eq] at h
    rw [List.eq_of_mem_replicate h]
    simp [DevOp.isXmit, DevOp.isActivateRecv, DevOp.isRecv, DevOp.isTrigger]
  · simp only [restore, List.mem_flatMap, List.mem_cons, List.mem_singleton] at h
    obtain ⟨i, _, h⟩ := h
    simp only [List.not_mem_nil, or_false] at h
    rcases h with rfl | rfl | rfl | rfl <;> exact ⟨rfl, rfl, rfl, rfl⟩

/-- A test that nothing outside the capture round passes counts, over a whole
call that returns, what it counts over the capture round. -/
theorem callOps_countP (brs : BaseRadioSet) (findLTS : LtsOracle) (w : World) (adjust : Bool)
    (hR : 2 ≤ brs.R) (hS : brs.cfg.prefixLen + 160 ≤ brs.cfg.sampsPerSymbol)
    (p : DevOp → Bool)
    (hp : ∀ offset op, (op ∈ brs.drainAll ∨ op ∈ brs.prepare ∨
      op ∈ adjustDelays brs.R offset ∨ op ∈ brs.restore) → p op = false) :
    (brs.callOps findLTS w adjust).countP p = brs.capture.countP p := by
  have hz : ∀ l : List DevOp, (∀ op, op ∈ l → p op = false) → l.countP p = 0 := by
    intro l hl
    rw [List.countP_eq_zero]
    intro op hop
    simp [hl op hop]
  rw [callOps_eq brs findLTS w adjust hR hS]
  simp only [List.countP_append]
  rw [hz brs.drainAll (fun op h => hp [] op (Or.inl h)),
    hz brs.prepare (fun op h => hp [] op (Or.inr (Or.inl h))),
    hz brs.restore (fun op h => hp [] op (Or.inr (Or.inr (Or.inr h))))]
  have hadj : (if (adjust && (brs.measured findLTS w).2) = true
      then adjustDelays brs.R (brs.measured findLTS w).1 else []).countP p = 0 := by
    split_ifs
    · exact hz _ (fun op h => hp _ op (Or.inr (Or.inr (Or.inl h))))
    · rfl
  rw [hadj]
  omega

/-- C14: for every sub-round i below R of the capture round on at least 2
radios, the round consists of the earlier sub-rounds, then the
arm-and-transmit operations of sub-round i, then the trigger writes, then the
reads of sub-round i, then the later sub-rounds.  The operations before the
trigger contain the transmit of radio i and the activateRecv of every other
radio, and no trigger and no read; the operations after it are reads only; the
trigger writes are exactly one TRIGGER_GEN write per cell, to baseRadio(c) for
cell c in order, and they are the only trigger writes of the sub-round.  A
collectCSI call that returns issued this capture round as a contiguous part of
its operations and fired R times nCells triggers in all; a call that throws
issued nothing. -/
theorem capture_trigger_order (brs : BaseRadioSet) (findLTS : LtsOracle) (w : World)
    (adjust : Bool) (i : Nat) (hR : 2 ≤ brs.R) (hi : i < brs.R) :
    (∀ r, brs.collectCSI findLTS w adjust = .ok r →
      r.1.trace = w.trace ++ brs.callOps findLTS w adjust ∧
      (∃ before after, brs.callOps findLTS w adjust = before ++ brs.capture ++ after) ∧
      (brs.callOps findLTS w adjust).countP DevOp.isTrigger = brs.R * brs.cfg.nCells) ∧
    (∀ e, brs.collectCSI findLTS w adjust = .error e → brs.callOps findLTS w adjust = []) ∧
    brs.capture
      = (List.range i).flatMap brs.subRound
        ++ (brs.armRound i ++ brs.radioTrigger ++ brs.readRound i)
        ++ (List.range' (i + 1) (brs.R - (i + 1))).flatMap brs.subRound ∧
    DevOp.xmit (Device.radio 0 i) brs.cfg.sampsPerSymbol 3 ∈ brs.armRound i ∧
    (∀ j, j < brs.R → j ≠ i →
      DevOp.activateRecv (Device.radio 0 j) brs.cfg.sampsPerSymbol ∈ brs.armRound i) ∧
    (∀ op, op ∈ brs.armRound i → op.isTrigger = false ∧ op.isRecv = false) ∧
    (∀ op, op ∈ brs.readRound i →
      op.isRecv = true ∧ op.isTrigger = false ∧ op.isXmit = false ∧
        op.isActivateRecv = false) ∧
    brs.radioTrigger.length = brs.cfg.nCells ∧
    (∀ c, c < brs.cfg.nCells →
      brs.radioTrigger[c]? = some (DevOp.writeSetting (brs.baseRadio c) "TRIGGER_GEN" "")) ∧
    (brs.subRound i).filter DevOp.isTrigger = brs.radioTrigger := by
  have harm : ∀ k op, op ∈ brs.armRound k → op.isTrigger = false ∧ op.isRecv = false := by
    intro k op hop
    obtain ⟨j, _, ⟨_, rfl⟩ | ⟨_, rfl⟩⟩ := mem_armRound brs k op hop <;> exact ⟨rfl, rfl⟩
  have hread : ∀ k op, op ∈ brs.readRound k →
      op.isRecv = true ∧ op.isTrigger = false ∧ op.isXmit = false ∧
        op.isActivateRecv = false := by
    intro k op hop
    obtain ⟨j, _, _, rfl⟩ := mem_readRound brs k op hop
    exact ⟨rfl, rfl, rfl, rfl⟩
  have htrig : ∀ op, op ∈ brs.radioTrigger → op.isTrigger = true := by
    intro op hop
    simp only [radioTrigger, List.mem_map] at hop
    obtain ⟨c, _, rfl⟩ := hop
    simp [DevOp.isTrigger]
  have hfilter : ∀ k, (brs.subRound k).filter DevOp.isTrigger = brs.radioTrigger := by
    intro k
    have h1 : (brs.armRound k).filter DevOp.isTrigger = [] := by
      rw [List.filter_eq_nil_iff]
      intro op hop
      simp [(harm k op hop).1]
    have h2 : brs.radioTrigger.filter DevOp.isTrigger = brs.radioTrigger :=
      List.filter_eq_self.mpr htrig
    have h3 : (brs.readRound k).filter DevOp.isTrigger = [] := by
      rw [List.filter_eq_nil_iff]
      intro op hop
      simp [(hread k op hop).2.1]
    rw [subRound, List.filter_append, List.filter_append, h1, h2, h3]
    simp
  have hlen : brs.radioTrigger.length = brs.cfg.nCells := by
    simp [radioTrigger]
  refine ⟨?_, ?_, ?_, ?_, ?_, harm i, hread i, hlen, ?_, hfilter i⟩
  · intro r hr
    have hS := frame_of_ok brs findLTS w adjust r hR hr
    have hops := callOps_eq brs findLTS w adjust hR hS
    refine ⟨?_, ?_, ?_⟩
    · rw [collectCSI_frame brs findLTS w adjust hR hS] at hr
      rw [← congrArg Prod.fst (Except.ok.inj hr), hops]
      unfold captureAndAdjust
      simp only [capturedTrace]
      generalize (adjust && (brs.measured findLTS w).2) = b
      cases b <;> simp
    · rw [hops]
      exact ⟨brs.drainAll ++ brs.prepare,
        (if (adjust && (brs.measured findLTS w).2) = true
          then adjustDelays brs.R (brs.measured findLTS w).1 else []) ++ brs.restore,
        by simp only [List.append_assoc]⟩
    · rw [callOps_countP brs findLTS w adjust hR hS _
        (fun offset op h => (outside_capture brs offset op h).2.2.2),
        capture_eq_subRounds, countP_flatMap_range _ _ brs.cfg.nCells brs.R
          (fun j _ => by rw [List.countP_eq_length_filter, hfilter j, hlen])]
  · intro e he
    apply callOps_short brs findLTS w adjust hR
    by_contra hS
    rw [collectCSI_frame brs findLTS w adjust hR (by omega)] at he
    cases he
  · rw [capture_eq_subRounds, range_split i brs.R hi, List.flatMap_append, List.flatMap_cons]
    simp only [subRound, List.append_assoc]
  · simp only [armRound, List.mem_map, List.mem_range]
    exact ⟨i, hi, by rw [if_pos rfl]⟩
  · intro j hj hji
    simp only [armRound, List.mem_map, List.mem_range]
    exact ⟨j, hj, by rw [if_neg hji]⟩
  · intro c hc
    simp [radioTrigger, List.getElem?_map, List.getElem?_range hc]

/-- Witness of C14: sub-round 1 of the two-radio example array, where radio 1
transmits and radio 0 is armed before the trigger; the call returns and fires
two triggers. -/
theorem capture_trigger_order_witness :
    2 ≤ twoRadioArray.R ∧ 1 < twoRadioArray.R ∧
      DevOp.xmit (Device.radio 0 1) twoRadioArray.cfg.sampsPerSymbol 3
        ∈ twoRadioArray.armRound 1 ∧
      (twoRadioArray.subRound 1).filter DevOp.isTrigger = twoRadioArray.radioTrigger ∧
      (twoRadioArray.callOps jitterLTS freshWorld true).countP DevOp.isTrigger
        = twoRadioArray.R * twoRadioArray.cfg.nCells :=
  have h := capture_trigger_order twoRadioArray jitterLTS freshWorld true 1
    (by decide) (by decide)
  ⟨by decide, by decide, h.2.2.2.1, h.2.2.2.2.2.2.2.2.2, (h.1 _ rfl).2.2⟩

end Sounder
